import Mathlib

/-!
Verification development for the bond trading system.

The C++ sources are shallowly embedded here:
* prices are modelled as rationals (all prices in the system are dyadic
  fractions, on which the C++ double arithmetic used by the services is exact);
* `long` quantities and counters are modelled as integers (no computation in
  the embedded code paths ever approaches the 64-bit range);
* every `std::map`/`std::unordered_map` keyed store is modelled as an
  association list with the lookup/upsert/erase operations used by the code;
  the C++ "erase then insert" and `map[k] = v` idioms are both modelled by
  `aupsert`, which agrees with them on the map abstraction (lookup results);
* listener notification loops are modelled by returning the list of payloads
  passed to `ProcessAdd`, in order, for one registered listener.
-/

namespace TradingSystem

/-- PricingSide from the source: `enum PricingSide { BID, OFFER }`. -/
inductive PricingSide
  | bid
  | offer

deriving instance DecidableEq, Repr for PricingSide

/-- Side from tradebookingservice.hpp: `enum Side { BUY, SELL }`. -/
inductive Side
  | buy
  | sell

deriving instance DecidableEq, Repr for Side

/-- InquiryState from inquiryservice.hpp:
`enum InquiryState { RECEIVED, QUOTED, DONE, REJECTED, CUSTOMER_REJECTED }`. -/
inductive InquiryState
  | received
  | quoted
  | done
  | rejected
  | customerRejected

deriving instance DecidableEq, Repr for InquiryState

/-- Lookup in an association list, first matching key wins
(the `find` / `operator[]` read path of the C++ keyed stores). -/
def alookup {κ α : Type} [DecidableEq κ] : List (κ × α) → κ → Option α
  | [], _ => none
  | e :: rest, k => if e.1 = k then some e.2 else alookup rest k

/-- Store a value under a key: replace the first binding of the key, or append
a new binding.  Models both the C++ `map[k] = v` assignment and the
"`erase(k)` then `insert({k, v})`" idiom (they agree on lookups). -/
def aupsert {κ α : Type} [DecidableEq κ] : List (κ × α) → κ → α → List (κ × α)
  | [], k, v => [(k, v)]
  | e :: rest, k, v => if e.1 = k then (k, v) :: rest else e :: aupsert rest k v

/-- Remove every binding of a key (C++ `map.erase(k)`; the stores never hold
duplicate keys, so removing all bindings coincides with removing the one). -/
def aerase {κ α : Type} [DecidableEq κ] (l : List (κ × α)) (k : κ) : List (κ × α) :=
  l.filter (fun e => e.1 ≠ k)

/-- Add `q` to the integer value bound to `k`, inserting the binding if absent.
This is the shape of `Position::AddPosition` (positionservice.hpp) and of the
per-price accumulation loops of `MarketDataService::AggregateDepth`. -/
def updAdd {κ : Type} [DecidableEq κ] : List (κ × ℤ) → κ → ℤ → List (κ × ℤ)
  | [], k, q => [(k, q)]
  | e :: rest, k, q => if e.1 = k then (e.1, e.2 + q) :: rest else e :: updAdd rest k q

/-- Sum of the values bound to `k` (zero when absent). -/
def sumAt {κ : Type} [DecidableEq κ] (k : κ) (l : List (κ × ℤ)) : ℤ :=
  ((l.filter (fun e => e.1 = k)).map Prod.snd).sum

theorem alookup_aupsert {κ α : Type} [DecidableEq κ] (l : List (κ × α)) (k : κ) (v : α)
    (k' : κ) : alookup (aupsert l k v) k' = if k' = k then some v else alookup l k' := by
  induction l with
  | nil =>
      by_cases h : k' = k
      · subst h
        simp [aupsert, alookup]
      · simp [aupsert, alookup, h, Ne.symm h]
  | cons e rest ih =>
      by_cases he : e.1 = k
      · by_cases h : k' = k
        · subst h
          simp [aupsert, alookup, he]
        · simp [aupsert, alookup, he, h, Ne.symm h]
      · by_cases h1 : e.1 = k'
        · have hk : ¬ k' = k := fun hh => he (h1.trans hh)
          simp [aupsert, alookup, he, h1, hk]
        · simp [aupsert, alookup, he, h1, ih]

theorem mem_aupsert {κ α : Type} [DecidableEq κ] {l : List (κ × α)} {k : κ} {v : α}
    {e : κ × α} (h : e ∈ aupsert l k v) : e = (k, v) ∨ e ∈ l := by
  induction l with
  | nil =>
      simp only [aupsert, List.mem_singleton] at h
      exact Or.inl h
  | cons e0 rest ih =>
      by_cases he : e0.1 = k
      · simp only [aupsert, if_pos he, List.mem_cons] at h
        rcases h with h | h
        · exact Or.inl h
        · exact Or.inr (List.mem_cons_of_mem _ h)
      · simp only [aupsert, if_neg he, List.mem_cons] at h
        rcases h with h | h
        · exact Or.inr (h ▸ List.mem_cons_self _ _)
        · rcases ih h with h' | h'
          · exact Or.inl h'
          · exact Or.inr (List.mem_cons_of_mem _ h')

theorem mem_aerase {κ α : Type} [DecidableEq κ] {l : List (κ × α)} {k : κ} {e : κ × α}
    (h : e ∈ aerase l k) : e ∈ l ∧ e.1 ≠ k := by
  simpa [aerase] using h

theorem alookup_aerase_self {κ α : Type} [DecidableEq κ] (l : List (κ × α)) (k : κ) :
    alookup (aerase l k) k = none := by
  induction l with
  | nil => simp [aerase, alookup]
  | cons e rest ih =>
      by_cases he : e.1 = k
      · simpa [aerase, he] using ih
      · simpa [aerase, he, alookup] using ih

theorem sum_updAdd {κ : Type} [DecidableEq κ] (l : List (κ × ℤ)) (k : κ) (q : ℤ) :
    ((updAdd l k q).map Prod.snd).sum = (l.map Prod.snd).sum + q := by
  induction l with
  | nil => simp [updAdd]
  | cons e rest ih =>
      by_cases he : e.1 = k
      · simp [updAdd, he]
        ring
      · simp [updAdd, he, ih]
        ring

theorem alookup_updAdd_self {κ : Type} [DecidableEq κ] (l : List (κ × ℤ)) (k : κ) (q : ℤ) :
    alookup (updAdd l k q) k = some ((alookup l k).getD 0 + q) := by
  induction l with
  | nil => simp [updAdd, alookup]
  | cons e rest ih =>
      by_cases he : e.1 = k
      · simp [updAdd, he, alookup]
      · simp [updAdd, he, alookup, ih]

theorem sumAt_nil {κ : Type} [DecidableEq κ] (k : κ) : sumAt k ([] : List (κ × ℤ)) = 0 := by
  simp [sumAt]

theorem sumAt_cons {κ : Type} [DecidableEq κ] (k : κ) (e : κ × ℤ) (l : List (κ × ℤ)) :
    sumAt k (e :: l) = (if e.1 = k then e.2 else 0) + sumAt k l := by
  by_cases h : e.1 = k <;> simp [sumAt, List.filter_cons, h]

theorem sumAt_append {κ : Type} [DecidableEq κ] (k : κ) (l1 l2 : List (κ × ℤ)) :
    sumAt k (l1 ++ l2) = sumAt k l1 + sumAt k l2 := by
  simp [sumAt, List.filter_append]

theorem sumAt_updAdd {κ : Type} [DecidableEq κ] (l : List (κ × ℤ)) (k k' : κ) (q : ℤ) :
    sumAt k' (updAdd l k q) = sumAt k' l + (if k' = k then q else 0) := by
  induction l with
  | nil =>
      by_cases h : k' = k
      · subst h
        simp [updAdd, sumAt_cons, sumAt_nil]
      · simp [updAdd, sumAt_cons, sumAt_nil, h, Ne.symm h]
  | cons e rest ih =>
      by_cases he : e.1 = k
      · by_cases h1 : e.1 = k'
        · have hk : k' = k := h1.symm.trans he
          subst hk
          simp only [updAdd, if_pos he, sumAt_cons, if_pos h1, if_pos rfl, if_true]
          ring
        · have hk : ¬ k' = k := fun hh => h1 (he.trans hh.symm)
          simp [updAdd, he, sumAt_cons, h1, hk, Ne.symm hk]
      · simp only [updAdd, if_neg he, sumAt_cons, ih]
        ring

theorem keys_updAdd {κ : Type} [DecidableEq κ] (l : List (κ × ℤ)) (k : κ) (q : ℤ) :
    (updAdd l k q).map Prod.fst =
      if k ∈ l.map Prod.fst then l.map Prod.fst else l.map Prod.fst ++ [k] := by
  induction l with
  | nil => simp [updAdd]
  | cons e rest ih =>
      by_cases he : e.1 = k
      · simp [updAdd, he]
      · have : ¬ k = e.1 := fun h => he h.symm
        by_cases hk : k ∈ rest.map Prod.fst
        · simp [updAdd, he, ih, hk, this]
        · simp [updAdd, he, ih, hk, this]

theorem updAdd_of_not_mem_keys {κ : Type} [DecidableEq κ] {l : List (κ × ℤ)} {k : κ}
    (q : ℤ) (h : k ∉ l.map Prod.fst) : updAdd l k q = l ++ [(k, q)] := by
  induction l with
  | nil => simp [updAdd]
  | cons e rest ih =>
      simp only [List.map_cons, List.mem_cons] at h
      push_neg at h
      have he : ¬ e.1 = k := fun hc => h.1 hc.symm
      simp [updAdd, he, ih h.2]

/-- Order from marketdataservice.hpp: `(price, quantity, side)`. -/
structure Order where
  price : ℚ
  quantity : ℤ
  side : PricingSide

deriving instance DecidableEq, Repr for Order

/-- OrderBook from marketdataservice.hpp: product (identified by its id here),
bid stack and offer stack. -/
structure OrderBook where
  productId : String
  bidStack : List Order
  offerStack : List Order

deriving instance DecidableEq, Repr for OrderBook

/-- `std::max_element` over the bid stack with comparator `a.price < b.price`
(`OrderBook::GetBestBidOffer`): the first order of maximal price.  The C++
dereferences the end iterator on an empty stack (undefined); the embedding
totalizes that case with a dummy order, which no theorem relies on. -/
def bestBidOrder (b : OrderBook) : Order :=
  match b.bidStack with
  | [] => ⟨0, 0, PricingSide.bid⟩
  | o :: rest => rest.foldl (fun acc x => if acc.price < x.price then x else acc) o

/-- `std::min_element` over the offer stack (`OrderBook::GetBestBidOffer`):
the first order of minimal price. -/
def bestOfferOrder (b : OrderBook) : Order :=
  match b.offerStack with
  | [] => ⟨0, 0, PricingSide.offer⟩
  | o :: rest => rest.foldl (fun acc x => if x.price < acc.price then x else acc) o

/-- The per-price accumulation loop of `MarketDataService::AggregateDepth`:
fold the stack into a price-keyed quantity map (insert on a new price, add on
an existing one).  The C++ accumulator is an `unordered_map`; the embedding
keeps first-insertion order, which the service never observes. -/
def aggPairs (l : List Order) : List (ℚ × ℤ) :=
  l.foldl (fun acc o => updAdd acc o.price o.quantity) []

/-- Rebuild the aggregated stack from the accumulated per-price map with the
given side (`aggBid.push_back(Order(item.first, item.second, BID))` and the
matching offer loop in `MarketDataService::AggregateDepth`). -/
def aggregateStack (s : PricingSide) (l : List Order) : List Order :=
  (aggPairs l).map (fun pq => ⟨pq.1, pq.2, s⟩)

/-- `MarketDataService::AggregateDepth`: replace both stacks of a book by
their per-price aggregations. -/
def aggregateDepth (b : OrderBook) : OrderBook :=
  ⟨b.productId, aggregateStack PricingSide.bid b.bidStack,
    aggregateStack PricingSide.offer b.offerStack⟩

/-- Total quantity resting at price `p` in a stack. -/
def qtyAt (p : ℚ) (l : List Order) : ℤ :=
  ((l.filter (fun o => o.price = p)).map Order.quantity).sum

/-- One parsed 5-level market-data line: the new bid and offer orders for a
product (the connector parses exactly `bookDepth = 5` levels per side; the
claims do not depend on the count, so the embedding takes lists). -/
structure Snapshot where
  productId : String
  bids : List Order
  offers : List Order

deriving instance DecidableEq, Repr for Snapshot

/-- The market-data service's keyed store: productId to stored book. -/
abbrev MDState := List (String × OrderBook)

/-- The book obtained inside the connector's per-line loop right before
aggregation: `service->GetData(productId)` (a default empty book when the
key is new) with the snapshot's orders pushed onto both stacks. -/
def mdMerged (st : MDState) (s : Snapshot) : OrderBook :=
  let b0 := (alookup st s.productId).getD ⟨s.productId, [], []⟩
  ⟨s.productId, b0.bidStack ++ s.bids, b0.offerStack ++ s.offers⟩

/-- One iteration of the market-data intake loop
(`MarketDataConnector::Subscribe` / `handle_read`): append the snapshot's
orders onto the stored book, `AggregateDepth`, then `OnMessage` with the
aggregated book (which upserts it and notifies the listeners once each).
Returns the new store and the list of books handed to `ProcessAdd`. -/
def mdProcessSnapshot (st : MDState) (s : Snapshot) : MDState × List OrderBook :=
  let agg := aggregateDepth (mdMerged st s)
  (aupsert st s.productId agg, [agg])

/-- Run the intake over a sequence of snapshots starting from an empty store. -/
def mdRun (snaps : List Snapshot) : MDState :=
  snaps.foldl (fun st s => (mdProcessSnapshot st s).1) []

/-- Quantity stored for product `pid` at bid price `p` (zero when absent). -/
def storedBidQty (st : MDState) (pid : String) (p : ℚ) : ℤ :=
  qtyAt p (((alookup st pid).getD ⟨pid, [], []⟩).bidStack)

/-- Quantity stored for product `pid` at offer price `p` (zero when absent). -/
def storedOfferQty (st : MDState) (pid : String) (p : ℚ) : ℤ :=
  qtyAt p (((alookup st pid).getD ⟨pid, [], []⟩).offerStack)

theorem qtyAt_nil (p : ℚ) : qtyAt p [] = 0 := by
  simp [qtyAt]

theorem qtyAt_cons (p : ℚ) (o : Order) (l : List Order) :
    qtyAt p (o :: l) = (if o.price = p then o.quantity else 0) + qtyAt p l := by
  by_cases h : o.price = p <;> simp [qtyAt, List.filter_cons, h]

theorem qtyAt_append (p : ℚ) (l1 l2 : List Order) :
    qtyAt p (l1 ++ l2) = qtyAt p l1 + qtyAt p l2 := by
  simp [qtyAt, List.filter_append]

theorem qtyAt_map_mk (p : ℚ) (s : PricingSide) (pairs : List (ℚ × ℤ)) :
    qtyAt p (pairs.map (fun pq => (⟨pq.1, pq.2, s⟩ : Order))) = sumAt p pairs := by
  induction pairs with
  | nil => simp [qtyAt, sumAt]
  | cons e rest ih => simp [qtyAt_cons, sumAt_cons, ih]

theorem sumAt_aggPairs_foldl (l : List Order) (acc : List (ℚ × ℤ)) (p : ℚ) :
    sumAt p (l.foldl (fun a o => updAdd a o.price o.quantity) acc) = sumAt p acc + qtyAt p l := by
  induction l generalizing acc with
  | nil => simp [qtyAt_nil]
  | cons o rest ih =>
      simp only [List.foldl_cons, ih, sumAt_updAdd, qtyAt_cons]
      by_cases h : o.price = p
      · simp [h]
        ring
      · have h' : ¬ p = o.price := fun hh => h hh.symm
        simp [h, h']

theorem qtyAt_aggregateStack (p : ℚ) (s : PricingSide) (l : List Order) :
    qtyAt p (aggregateStack s l) = qtyAt p l := by
  have h := sumAt_aggPairs_foldl l [] p
  simp only [aggregateStack, aggPairs, qtyAt_map_mk]
  simpa [sumAt_nil] using h

theorem keys_aggPairs_foldl_nodup (l : List Order) (acc : List (ℚ × ℤ))
    (h : (acc.map Prod.fst).Nodup) :
    ((l.foldl (fun a o => updAdd a o.price o.quantity) acc).map Prod.fst).Nodup := by
  induction l generalizing acc with
  | nil => simpa using h
  | cons o rest ih =>
      refine ih _ ?_
      rw [keys_updAdd]
      by_cases hm : o.price ∈ acc.map Prod.fst
      · simpa [hm] using h
      · simp only [hm, if_neg]
        simp [List.nodup_append, h, hm]

theorem prices_aggregateStack_nodup (s : PricingSide) (l : List Order) :
    ((aggregateStack s l).map Order.price).Nodup := by
  have h := keys_aggPairs_foldl_nodup l [] (by simp)
  simpa [aggregateStack, aggPairs, List.map_map, Function.comp] using h

theorem foldl_updAdd_of_nodup (pairs : List (ℚ × ℤ)) (acc : List (ℚ × ℤ))
    (h : ((acc.map Prod.fst) ++ (pairs.map Prod.fst)).Nodup) :
    pairs.foldl (fun a pq => updAdd a pq.1 pq.2) acc = acc ++ pairs := by
  induction pairs generalizing acc with
  | nil => simp
  | cons e rest ih =>
      have hnot : e.1 ∉ acc.map Prod.fst := by
        simp only [List.map_cons, List.nodup_append, List.disjoint_left] at h
        exact fun hc => h.2.2 hc (List.mem_cons_self _ _)
      have step : updAdd acc e.1 e.2 = acc ++ [(e.1, e.2)] := updAdd_of_not_mem_keys _ hnot
      simp only [List.foldl_cons, step]
      have h' : (((acc ++ [(e.1, e.2)]).map Prod.fst) ++ (rest.map Prod.fst)).Nodup := by
        simpa [List.append_assoc] using h
      simpa [List.append_assoc] using ih (acc ++ [(e.1, e.2)]) h'

theorem aggPairs_aggregateStack (s : PricingSide) (l : List Order) :
    aggPairs (aggregateStack s l) = aggPairs l := by
  have hnodup : ((aggPairs l).map Prod.fst).Nodup :=
    keys_aggPairs_foldl_nodup l [] (by simp)
  have hfold : (aggPairs l).foldl (fun a pq => updAdd a pq.1 pq.2) [] = aggPairs l := by
    simpa using foldl_updAdd_of_nodup (aggPairs l) [] (by simpa using hnodup)
  calc aggPairs (aggregateStack s l)
      = (aggPairs l).foldl (fun a pq => updAdd a pq.1 pq.2) [] := by
        simp [aggPairs, aggregateStack, List.foldl_map]
    _ = aggPairs l := hfold

theorem aggregateStack_idem (s : PricingSide) (l : List Order) :
    aggregateStack s (aggregateStack s l) = aggregateStack s l := by
  have h := aggPairs_aggregateStack s l
  simp only [aggregateStack] at h ⊢
  rw [h]

theorem aggregateDepth_idem (b : OrderBook) :
    aggregateDepth (aggregateDepth b) = aggregateDepth b := by
  simp [aggregateDepth, aggregateStack_idem]

theorem storedBidQty_step (st : MDState) (s : Snapshot) (pid : String) (p : ℚ) :
    storedBidQty (mdProcessSnapshot st s).1 pid p =
      if s.productId = pid then storedBidQty st pid p + qtyAt p s.bids
      else storedBidQty st pid p := by
  by_cases h : s.productId = pid
  · subst h
    simp [storedBidQty, mdProcessSnapshot, alookup_aupsert, aggregateDepth, mdMerged,
      qtyAt_aggregateStack, qtyAt_append]
  · have h' : ¬ pid = s.productId := fun hh => h hh.symm
    simp [storedBidQty, mdProcessSnapshot, alookup_aupsert, h, h']

theorem storedOfferQty_step (st : MDState) (s : Snapshot) (pid : String) (p : ℚ) :
    storedOfferQty (mdProcessSnapshot st s).1 pid p =
      if s.productId = pid then storedOfferQty st pid p + qtyAt p s.offers
      else storedOfferQty st pid p := by
  by_cases h : s.productId = pid
  · subst h
    simp [storedOfferQty, mdProcessSnapshot, alookup_aupsert, aggregateDepth, mdMerged,
      qtyAt_aggregateStack, qtyAt_append]
  · have h' : ¬ pid = s.productId := fun hh => h hh.symm
    simp [storedOfferQty, mdProcessSnapshot, alookup_aupsert, h, h']

theorem storedBidQty_foldl (snaps : List Snapshot) (st : MDState) (pid : String) (p : ℚ) :
    storedBidQty (snaps.foldl (fun st s => (mdProcessSnapshot st s).1) st) pid p =
      storedBidQty st pid p +
        ((snaps.filter (fun s => s.productId = pid)).map (fun s => qtyAt p s.bids)).sum := by
  induction snaps generalizing st with
  | nil => simp
  | cons s rest ih =>
      simp only [List.foldl_cons, ih, storedBidQty_step, List.filter_cons]
      by_cases h : s.productId = pid
      · simp [h]
        ring
      · simp [h]

theorem storedOfferQty_foldl (snaps : List Snapshot) (st : MDState) (pid : String) (p : ℚ) :
    storedOfferQty (snaps.foldl (fun st s => (mdProcessSnapshot st s).1) st) pid p =
      storedOfferQty st pid p +
        ((snaps.filter (fun s => s.productId = pid)).map (fun s => qtyAt p s.offers)).sum := by
  induction snaps generalizing st with
  | nil => simp
  | cons s rest ih =>
      simp only [List.foldl_cons, ih, storedOfferQty_step, List.filter_cons]
      by_cases h : s.productId = pid
      · simp [h]
        ring
      · simp [h]

/-- C7: every order book handed to the market-data service's listeners and
stored in its map is the aggregated form of its input stacks: no two orders of
a side share a price, the quantity at each price is the sum of the input
quantities of that side at that price, and aggregation is idempotent. -/
theorem C7_aggregated_book_distinct_prices_and_sum :
    ∀ (st : MDState) (snap : Snapshot),
      alookup (mdProcessSnapshot st snap).1 snap.productId
          = some (aggregateDepth (mdMerged st snap))
      ∧ (mdProcessSnapshot st snap).2 = [aggregateDepth (mdMerged st snap)]
      ∧ (∀ (s : PricingSide) (l : List Order), ((aggregateStack s l).map Order.price).Nodup)
      ∧ (∀ (s : PricingSide) (l : List Order) (p : ℚ), qtyAt p (aggregateStack s l) = qtyAt p l)
      ∧ (∀ b : OrderBook, aggregateDepth (aggregateDepth b) = aggregateDepth b) := by
  intro st snap
  refine ⟨?_, rfl, prices_aggregateStack_nodup, ?_, aggregateDepth_idem⟩
  · simp [mdProcessSnapshot, alookup_aupsert]
  · intro s l p
    exact qtyAt_aggregateStack p s l

/-- C9: the connector appends each snapshot's orders onto the previously
stored (already aggregated) book before re-aggregating, so the stored
quantity of a product at a price is the sum over all snapshots of that
product, not the latest snapshot alone. -/
theorem C9_marketdata_accumulates_across_snapshots :
    ∀ (snaps : List Snapshot) (pid : String) (p : ℚ),
      storedBidQty (mdRun snaps) pid p
          = ((snaps.filter (fun s => s.productId = pid)).map (fun s => qtyAt p s.bids)).sum
      ∧ storedOfferQty (mdRun snaps) pid p
          = ((snaps.filter (fun s => s.productId = pid)).map (fun s => qtyAt p s.offers)).sum := by
  intro snaps pid p
  constructor
  · have h := storedBidQty_foldl snaps [] pid p
    simpa [mdRun, storedBidQty, alookup, qtyAt_nil] using h
  · have h := storedOfferQty_foldl snaps [] pid p
    simpa [mdRun, storedOfferQty, alookup, qtyAt_nil] using h

/-- The spread-gated fields of the execution order built by
`AlgoExecutionService::AlgoExecuteOrder`.  In the C++, `side`, `price` and
`quantity` are declared without initializers and assigned only inside the
`if (offerPrice - bidPrice <= 1.0/128.0)` block; `none` models the
indeterminate values on the skipped path. -/
structure AlgoExecGated where
  side : PricingSide
  price : ℚ
  quantity : ℤ

deriving instance DecidableEq, Repr for AlgoExecGated

/-- The algo execution record flowed to the listeners (the product key plus
the gated fields; the random order ids, `MARKET` order type, zero hidden
quantity and `BROKERTEC` market tag are constants not used by any claim). -/
structure AlgoExecution where
  productId : String
  gated : Option AlgoExecGated

deriving instance DecidableEq, Repr for AlgoExecution

/-- AlgoExecutionService state: the keyed store and the alternation counter
(`count = 0` in the constructor). -/
structure AlgoExecState where
  algoExecutionMap : List (String × AlgoExecution)
  count : ℕ

deriving instance DecidableEq, Repr for AlgoExecState

/-- The constructor `AlgoExecutionService()`: empty map, `count = 0`. -/
def algoExecutionServiceInit : AlgoExecState := ⟨[], 0⟩

/-- `AlgoExecutionService::AlgoExecuteOrder`: read the best bid/offer, gate
only the `side/price/quantity` assignment on the spread being at most 1/128,
increment the counter, then unconditionally upsert the algo execution into
the map and flow it to every listener.  Returns the new state and the list of
payloads passed to `ProcessAdd` for one listener. -/
def algoExecuteOrder (st : AlgoExecState) (b : OrderBook) : AlgoExecState × List AlgoExecution :=
  let key := b.productId
  let bid := bestBidOrder b
  let offer := bestOfferOrder b
  let gated : Option AlgoExecGated :=
    if offer.price - bid.price ≤ 1 / 128 then
      if st.count % 2 = 0 then some ⟨PricingSide.bid, offer.price, bid.quantity⟩
      else some ⟨PricingSide.offer, bid.price, offer.quantity⟩
    else none
  let algoExecution : AlgoExecution := ⟨key, gated⟩
  (⟨aupsert st.algoExecutionMap key algoExecution, st.count + 1⟩, [algoExecution])

/-- Scenario S2's book: best bid 99.9921875 = 12799/128, best offer
100.0078125 = 12801/128, spread 1/64 > 1/128. -/
def wideSpreadBook : OrderBook :=
  ⟨"912828M80", [⟨12799 / 128, 1000000, PricingSide.bid⟩],
    [⟨12801 / 128, 2000000, PricingSide.offer⟩]⟩

/-- C1: refuted on the code.  For a book whose spread exceeds 1/128 the
service still stores an AlgoExecution and still invokes `ProcessAdd` on its
listeners (only the `side/price/quantity` assignment is gated), so a
downstream execution is produced for that book, contradicting the claimed
"no downstream execution" invariant. -/
theorem C1_algo_execution_emitted_despite_wide_spread :
    (bestOfferOrder wideSpreadBook).price - (bestBidOrder wideSpreadBook).price > 1 / 128
    ∧ (algoExecuteOrder algoExecutionServiceInit wideSpreadBook).2
        = [⟨"912828M80", none⟩]
    ∧ alookup (algoExecuteOrder algoExecutionServiceInit wideSpreadBook).1.algoExecutionMap
        "912828M80" = some ⟨"912828M80", none⟩ := by
  refine ⟨by norm_num [bestOfferOrder, bestBidOrder, wideSpreadBook], ?_, ?_⟩
  · norm_num [algoExecuteOrder, wideSpreadBook, bestOfferOrder, bestBidOrder,
      algoExecutionServiceInit]
  · norm_num [algoExecuteOrder, wideSpreadBook, bestOfferOrder, bestBidOrder,
      algoExecutionServiceInit, aupsert, alookup]

/-- Price from pricingservice.hpp: `(product, mid, bidOfferSpread)`. -/
structure PriceRec where
  productId : String
  mid : ℚ
  bidOfferSpread : ℚ

deriving instance DecidableEq, Repr for PriceRec

/-- PriceStreamOrder from streamingservice.hpp:
`(price, visibleQuantity, hiddenQuantity, side)`. -/
structure PriceStreamOrder where
  price : ℚ
  visibleQuantity : ℤ
  hiddenQuantity : ℤ
  side : PricingSide

deriving instance DecidableEq, Repr for PriceStreamOrder

/-- PriceStream: product plus bid and offer orders. -/
structure PriceStream where
  productId : String
  bidOrder : PriceStreamOrder
  offerOrder : PriceStreamOrder

deriving instance DecidableEq, Repr for PriceStream

/-- AlgoStreamingService state: keyed store plus the `long count` member.
The constructor `AlgoStreamingService()` only builds the listener and never
assigns `count`, so the counter's initial value is indeterminate; the
embedding therefore takes it as a parameter. -/
structure AlgoStreamState where
  algoStreamMap : List (String × PriceStream)
  count : ℤ

deriving instance DecidableEq, Repr for AlgoStreamState

/-- A freshly constructed AlgoStreamingService whose uninitialized `count`
member happens to hold `c`. -/
def algoStreamingServiceInit (c : ℤ) : AlgoStreamState := ⟨[], c⟩

/-- `AlgoStreamingService::PublishAlgoStream`: bid = mid − spread/2, offer =
mid + spread/2, visible quantity 1,000,000 when the counter is even and
2,000,000 when odd, hidden quantity twice the visible one; increment the
counter, upsert the stream keyed by product and notify the listeners.
(C++ `count % 2 == 0` tests evenness, which `count % 2 = 0` on ℤ matches for
every sign of `count`.) -/
def publishAlgoStream (st : AlgoStreamState) (p : PriceRec) : AlgoStreamState × List PriceStream :=
  let key := p.productId
  let bidPrice := p.mid - p.bidOfferSpread / 2
  let offerPrice := p.mid + p.bidOfferSpread / 2
  let visibleQuantity : ℤ := if st.count % 2 = 0 then 1000000 else 2000000
  let hiddenQuantity := visibleQuantity * 2
  let bidOrder : PriceStreamOrder := ⟨bidPrice, visibleQuantity, hiddenQuantity, PricingSide.bid⟩
  let offerOrder : PriceStreamOrder :=
    ⟨offerPrice, visibleQuantity, hiddenQuantity, PricingSide.offer⟩
  let priceStream : PriceStream := ⟨key, bidOrder, offerOrder⟩
  (⟨aupsert st.algoStreamMap key priceStream, st.count + 1⟩, [priceStream])

/-- Scenario S1's price: CUSIP 9128283H1, mid 100, spread 0.01. -/
def s1Price : PriceRec := ⟨"9128283H1", 100, 1 / 100⟩

/-- C2: the per-delivery formulas hold (bid = mid − spread/2, offer = mid +
spread/2, hidden = 2·visible, one stream stored for the product), but the
constructor never initializes `count`, so a fresh service whose indeterminate
counter is odd (here 1) streams its FIRST price with visible quantity
2,000,000 — the claimed deterministic alternation starting at 1,000,000 is
not established by the code. -/
theorem C2_uninitialized_counter_breaks_alternation_start :
    alookup (publishAlgoStream (algoStreamingServiceInit 1) s1Price).1.algoStreamMap "9128283H1"
        = some ⟨"9128283H1", ⟨19999 / 200, 2000000, 4000000, PricingSide.bid⟩,
            ⟨20001 / 200, 2000000, 4000000, PricingSide.offer⟩⟩
    ∧ (publishAlgoStream (algoStreamingServiceInit 1) s1Price).2
        = [⟨"9128283H1", ⟨19999 / 200, 2000000, 4000000, PricingSide.bid⟩,
            ⟨20001 / 200, 2000000, 4000000, PricingSide.offer⟩⟩]
    ∧ (2000000 : ℤ) ≠ 1000000 := by
  refine ⟨?_, ?_, by norm_num⟩
  · norm_num [publishAlgoStream, algoStreamingServiceInit, s1Price, aupsert, alookup]
  · norm_num [publishAlgoStream, algoStreamingServiceInit, s1Price]

/-- GUIService state relevant to throttling: the single per-service `startTime`
member, here the wall-clock time (in integer milliseconds, the unit of the
C++ `duration_cast<milliseconds>` comparison) of the last emission (or of
construction).  The throttle member is the constructor's constant 300. -/
structure GUIState where
  startTime : ℤ

deriving instance DecidableEq, Repr for GUIState

/-- `GUIService::PublishThrottledPrice`: publish through the connector only
when `now - startTime > 300` (strict), updating `startTime`; otherwise the
price is dropped and the state is untouched (nothing is buffered).  Returns
the new state and whether a GUI line was emitted. -/
def publishThrottledPrice (st : GUIState) (now : ℤ) : GUIState × Bool :=
  if now - st.startTime > 300 then (⟨now⟩, true) else (st, false)

/-- Drive `PublishThrottledPrice` over a sequence of price arrival times and
collect the timestamps of the emitted GUI lines. -/
def guiEmits (st : GUIState) : List ℤ → List ℤ
  | [] => []
  | t :: ts =>
      let r := publishThrottledPrice st t
      (if r.2 then [t] else []) ++ guiEmits r.1 ts

theorem guiEmits_emit_step (st : GUIState) (t : ℤ) (rest : List ℤ)
    (hc : t - st.startTime > 300) :
    guiEmits st (t :: rest) = t :: guiEmits ⟨t⟩ rest := by
  simp [guiEmits, publishThrottledPrice, hc]

theorem guiEmits_drop_step (st : GUIState) (t : ℤ) (rest : List ℤ)
    (hc : ¬ t - st.startTime > 300) :
    guiEmits st (t :: rest) = guiEmits st rest := by
  simp [guiEmits, publishThrottledPrice, hc]

theorem guiEmits_head_gap (ts : List ℤ) (st : GUIState) (t0 : ℤ)
    (h : (guiEmits st ts).head? = some t0) : t0 - st.startTime > 300 := by
  induction ts generalizing st with
  | nil => simp [guiEmits] at h
  | cons t rest ih =>
      by_cases hc : t - st.startTime > 300
      · rw [guiEmits_emit_step st t rest hc] at h
        simp only [List.head?_cons, Option.some.injEq] at h
        omega
      · rw [guiEmits_drop_step st t rest hc] at h
        exact ih st h

theorem guiEmits_chain (ts : List ℤ) (st : GUIState) :
    List.Chain' (fun a b => b - a > 300) (guiEmits st ts) := by
  induction ts generalizing st with
  | nil => simp [guiEmits]
  | cons t rest ih =>
      by_cases hc : t - st.startTime > 300
      · rw [guiEmits_emit_step st t rest hc, List.chain'_cons']
        refine ⟨?_, ih ⟨t⟩⟩
        intro y hy
        have hgap := guiEmits_head_gap rest ⟨t⟩ y hy
        simpa using hgap
      · rw [guiEmits_drop_step st t rest hc]
        exact ih st

theorem guiEmits_sublist (ts : List ℤ) (st : GUIState) :
    List.Sublist (guiEmits st ts) ts := by
  induction ts generalizing st with
  | nil => simp [guiEmits]
  | cons t rest ih =>
      by_cases hc : t - st.startTime > 300
      · rw [guiEmits_emit_step st t rest hc]
        exact List.Sublist.cons₂ t (ih ⟨t⟩)
      · rw [guiEmits_drop_step st t rest hc]
        exact List.Sublist.cons t (ih st)

/-- C6: a GUI line is emitted exactly when strictly more than 300 ms of
wall-clock time have passed since the single per-service last-emit timestamp;
a dropped price leaves the service state untouched (never buffered); the
emitted timestamps form a subsequence of the arrivals and any two consecutive
emitted lines are strictly more than 300 ms apart. -/
theorem C6_gui_throttle_consecutive_emits_gap_gt_300ms :
    ∀ (st : GUIState) (ts : List ℤ),
      List.Chain' (fun a b => b - a > 300) (guiEmits st ts)
      ∧ List.Sublist (guiEmits st ts) ts
      ∧ (∀ now : ℤ, (publishThrottledPrice st now).2 = true ↔ now - st.startTime > 300)
      ∧ (∀ now : ℤ, (publishThrottledPrice st now).2 = false →
          (publishThrottledPrice st now).1 = st) := by
  intro st ts
  refine ⟨guiEmits_chain ts st, guiEmits_sublist ts st, ?_, ?_⟩
  · intro now
    by_cases hc : now - st.startTime > 300 <;> simp [publishThrottledPrice, hc]
  · intro now h
    by_cases hc : now - st.startTime > 300
    · simp [publishThrottledPrice, hc] at h
    · simp [publishThrottledPrice, hc]

/-- OrderType from executionservice.hpp:
`enum OrderType { FOK, IOC, MARKET, LIMIT, STOP }`. -/
inductive OrderType
  | fok
  | ioc
  | market
  | limit
  | stop

deriving instance DecidableEq, Repr for OrderType

/-- ExecutionOrder from executionservice.hpp (the fields read by
`TradeBookingListener::ProcessAdd`). -/
structure ExecutionOrder where
  productId : String
  side : PricingSide
  orderId : String
  orderType : OrderType
  price : ℚ
  visibleQuantity : ℤ
  hiddenQuantity : ℤ
  parentOrderId : String
  isChildOrder : Bool

deriving instance DecidableEq, Repr for ExecutionOrder

/-- Trade from tradebookingservice.hpp:
`(product, tradeId, price, book, quantity, side)`. -/
structure Trade where
  productId : String
  tradeId : String
  price : ℚ
  book : String
  quantity : ℤ
  side : Side

deriving instance DecidableEq, Repr for Trade

/-- The `switch (pside)` of `TradeBookingListener::ProcessAdd`:
BID ↦ BUY, OFFER ↦ SELL. -/
def sideFromPricingSide : PricingSide → Side
  | PricingSide.bid => Side.buy
  | PricingSide.offer => Side.sell

/-- The `switch (count % 3)` book table of `TradeBookingListener::ProcessAdd`:
0 ↦ TRSY1, 1 ↦ TRSY2, 2 ↦ TRSY3. -/
def bookFromCount (count : ℕ) : String :=
  match count % 3 with
  | 0 => "TRSY1"
  | 1 => "TRSY2"
  | _ => "TRSY3"

/-- `TradeBookingListener::ProcessAdd`: synthesize a Trade from an
ExecutionOrder — quantity is visible + hidden, side maps BID ↦ BUY and
OFFER ↦ SELL, tradeId is the orderId, and the book is selected by the
per-listener counter, incremented before use (`count++` then
`switch (count % 3)`).  The listener's constructor sets `count = 0`.
Returns the new counter and the synthesized trade routed to `BookTrade`. -/
def tradeBookingProcessAdd (count : ℕ) (e : ExecutionOrder) : ℕ × Trade :=
  let count1 := count + 1
  (count1,
    ⟨e.productId, e.orderId, e.price, bookFromCount count1,
      e.visibleQuantity + e.hiddenQuantity, sideFromPricingSide e.side⟩)

/-- C4: the synthesized trade has quantity visible + hidden, side BUY for BID
and SELL for OFFER, tradeId equal to the orderId, and book
{0 ↦ TRSY1, 1 ↦ TRSY2, 2 ↦ TRSY3} applied to (counter + 1) mod 3 with the
counter starting at 0 and incremented before use; in particular the first
synthesized trade goes to TRSY2. -/
theorem C4_trade_booking_synthesis :
    ∀ (count : ℕ) (e : ExecutionOrder),
      (tradeBookingProcessAdd count e).2.quantity = e.visibleQuantity + e.hiddenQuantity
      ∧ (tradeBookingProcessAdd count e).2.side = sideFromPricingSide e.side
      ∧ sideFromPricingSide PricingSide.bid = Side.buy
      ∧ sideFromPricingSide PricingSide.offer = Side.sell
      ∧ (tradeBookingProcessAdd count e).2.tradeId = e.orderId
      ∧ (tradeBookingProcessAdd count e).2.book = bookFromCount ((count + 1) % 3)
      ∧ (tradeBookingProcessAdd count e).1 = count + 1
      ∧ (tradeBookingProcessAdd 0 e).2.book = "TRSY2" := by
  intro count e
  refine ⟨rfl, rfl, rfl, rfl, rfl, ?_, rfl, rfl⟩
  have hmod : (count + 1) % 3 % 3 = (count + 1) % 3 := Nat.mod_mod_of_dvd _ dvd_rfl
  simp [tradeBookingProcessAdd, bookFromCount, hmod]

/-- Position from positionservice.hpp: the product and its book-to-signed-
quantity map (`bookPositionMap`). -/
structure Position where
  productId : String
  bookPositionMap : List (String × ℤ)

deriving instance DecidableEq, Repr for Position

/-- `Position::GetAggregatePosition`: sum the per-book positions. -/
def getAggregatePosition (pos : Position) : ℤ :=
  (pos.bookPositionMap.map Prod.snd).sum

/-- The signed quantity of `PositionService::AddTrade`:
`(side == BUY) ? quantity : -quantity`. -/
def signedQuantity (t : Trade) : ℤ :=
  if t.side = Side.buy then t.quantity else -t.quantity

/-- `PositionService::AddTrade`: if the product has no Position yet, create
one and `AddPosition(book, signed)` into it; otherwise `AddPosition` into the
stored Position (`Position::AddPosition` inserts a new book slot or adds to
the existing one — exactly `updAdd`). -/
def addTrade (st : List (String × Position)) (t : Trade) : List (String × Position) :=
  let signed := signedQuantity t
  match alookup st t.productId with
  | none => aupsert st t.productId ⟨t.productId, updAdd [] t.book signed⟩
  | some pos => aupsert st t.productId ⟨pos.productId, updAdd pos.bookPositionMap t.book signed⟩

/-- Aggregate position stored for product `pid` (zero when absent). -/
def aggregateOf (st : List (String × Position)) (pid : String) : ℤ :=
  match alookup st pid with
  | none => 0
  | some pos => getAggregatePosition pos

theorem aggregateOf_addTrade (st : List (String × Position)) (t : Trade) (pid : String) :
    aggregateOf (addTrade st t) pid =
      aggregateOf st pid + (if t.productId = pid then signedQuantity t else 0) := by
  by_cases h : t.productId = pid
  · subst h
    cases hl : alookup st t.productId with
    | none =>
        simp [aggregateOf, addTrade, hl, alookup_aupsert, getAggregatePosition, sum_updAdd]
    | some pos =>
        simp [aggregateOf, addTrade, hl, alookup_aupsert, getAggregatePosition, sum_updAdd]
  · have h' : ¬ pid = t.productId := fun hh => h hh.symm
    cases hl : alookup st t.productId with
    | none => simp [aggregateOf, addTrade, hl, alookup_aupsert, h, h']
    | some pos => simp [aggregateOf, addTrade, hl, alookup_aupsert, h, h']

theorem aggregateOf_foldl_addTrade (trades : List Trade) (st : List (String × Position))
    (pid : String) :
    aggregateOf (trades.foldl addTrade st) pid =
      aggregateOf st pid +
        ((trades.filter (fun t => t.productId = pid)).map signedQuantity).sum := by
  induction trades generalizing st with
  | nil => simp
  | cons t rest ih =>
      simp only [List.foldl_cons, ih, aggregateOf_addTrade, List.filter_cons]
      by_cases h : t.productId = pid
      · simp [h]
        ring
      · simp [h]

/-- C5: after the position service processes any sequence of trades, the
aggregate position of a product is the sum of +quantity for BUY and
−quantity for SELL over the trades of that product; and `AddPosition` adds
the signed quantity into the existing book slot (inserting it when absent)
rather than replacing it. -/
theorem C5_position_aggregate_is_signed_sum :
    ∀ (trades : List Trade) (pid : String),
      aggregateOf (trades.foldl addTrade []) pid =
        ((trades.filter (fun t => t.productId = pid)).map signedQuantity).sum
      ∧ (∀ (m : List (String × ℤ)) (book : String) (q : ℤ),
          alookup (updAdd m book q) book = some ((alookup m book).getD 0 + q)) := by
  intro trades pid
  refine ⟨?_, fun m book q => alookup_updAdd_self m book q⟩
  have h := aggregateOf_foldl_addTrade trades [] pid
  simpa [aggregateOf, alookup] using h

/-- PV01 from riskservice.hpp: the per-unit PV01 value and the accumulated
quantity (the product is identified by the store key / notification key). -/
structure PV01 where
  pv01 : ℚ
  quantity : ℤ

deriving instance DecidableEq, Repr for PV01

/-- `RiskService::AddPosition` (the `getPV01` unit-value table lives in the
out-of-scope utils seed data, so it is a parameter `tbl`): compute the
delivered aggregate, build a fresh PV01 with that quantity, add the quantity
into the stored slot when the product already has one (keeping the stored
record's unit value) or insert the fresh record otherwise, then notify the
listeners with the FRESH record.  Returns the new store and the payloads
passed to `ProcessAdd` for one listener, tagged with the product id. -/
def riskAddPosition (tbl : String → ℚ) (st : List (String × PV01)) (pos : Position) :
    List (String × PV01) × List (String × PV01) :=
  let productId := pos.productId
  let quantity := getAggregatePosition pos
  let pv01Val := tbl productId
  let fresh : PV01 := ⟨pv01Val, quantity⟩
  let newStore :=
    match alookup st productId with
    | some r => aupsert st productId ⟨r.pv01, r.quantity + quantity⟩
    | none => aupsert st productId fresh
  (newStore, [(productId, fresh)])

/-- C10: when the product's PV01 slot already exists, the stored record
accumulates the delivered aggregate, while the listeners are notified with a
freshly constructed PV01 carrying only this delivery's aggregate. -/
theorem C10_risk_store_accumulates_listeners_get_delivery_quantity :
    ∀ (tbl : String → ℚ) (st : List (String × PV01)) (pos : Position) (r : PV01),
      alookup st pos.productId = some r →
        alookup (riskAddPosition tbl st pos).1 pos.productId
            = some ⟨r.pv01, r.quantity + getAggregatePosition pos⟩
        ∧ (riskAddPosition tbl st pos).2
            = [(pos.productId, ⟨tbl pos.productId, getAggregatePosition pos⟩)] := by
  intro tbl st pos r h
  constructor
  · simp [riskAddPosition, h, alookup_aupsert]
  · simp [riskAddPosition, h]

/-- Witness for C10 at a concrete existing slot. -/
theorem C10_witness :
    alookup [("912828M80", (⟨3 / 100, 5000000⟩ : PV01))] "912828M80" = some ⟨3 / 100, 5000000⟩
    ∧ (alookup (riskAddPosition (fun _ => 3 / 100)
          [("912828M80", (⟨3 / 100, 5000000⟩ : PV01))]
          ⟨"912828M80", [("TRSY1", 4000000)]⟩).1 "912828M80"
        = some ⟨3 / 100, 5000000 + getAggregatePosition ⟨"912828M80", [("TRSY1", 4000000)]⟩⟩
      ∧ (riskAddPosition (fun _ => 3 / 100)
          [("912828M80", (⟨3 / 100, 5000000⟩ : PV01))]
          ⟨"912828M80", [("TRSY1", 4000000)]⟩).2
        = [("912828M80", ⟨(fun _ => (3 : ℚ) / 100) "912828M80",
            getAggregatePosition ⟨"912828M80", [("TRSY1", 4000000)]⟩⟩)]) :=
  ⟨by simp [alookup],
    C10_risk_store_accumulates_listeners_get_delivery_quantity (fun _ => 3 / 100)
      [("912828M80", ⟨3 / 100, 5000000⟩)] ⟨"912828M80", [("TRSY1", 4000000)]⟩
      ⟨3 / 100, 5000000⟩ (by simp [alookup])⟩

theorem alookup_mem {κ α : Type} [DecidableEq κ] {l : List (κ × α)} {k : κ} {v : α}
    (h : alookup l k = some v) : (k, v) ∈ l := by
  induction l with
  | nil => simp [alookup] at h
  | cons e rest ih =>
      by_cases he : e.1 = k
      · simp only [alookup, if_pos he, Option.some.injEq] at h
        have : (k, v) = e := by
          rw [← he, ← h]
        exact this ▸ List.mem_cons_self _ _
      · simp only [alookup, if_neg he] at h
        exact List.mem_cons_of_mem _ (ih h)

/-- Inquiry from inquiryservice.hpp:
`(inquiryId, product, side, quantity, price, state)`. -/
structure Inquiry where
  inquiryId : String
  productId : String
  side : Side
  quantity : ℤ
  price : ℚ
  state : InquiryState

deriving instance DecidableEq, Repr for Inquiry

/-- The C++ value-initialized Inquiry produced by `map::operator[]` on a
missing key: empty strings, zero quantity and price, and the
zero-valued enumerators (BUY, RECEIVED). -/
def defaultInquiry : Inquiry := ⟨"", "", Side.buy, 0, 0, InquiryState.received⟩

/-- The inquiry service's keyed store (`map<string, Inquiry<T>> inquiryMap`). -/
abbrev InquiryStore := List (String × Inquiry)

/-- The unconditional part at the end of `InquiryService::OnMessage`: erase
the inquiry when its (current) state is DONE, otherwise store it; then notify
every listener.  Returns the updated store and the payloads passed to
`ProcessAdd` for one listener. -/
def onMessageEnd (m : InquiryStore) (i : Inquiry) : InquiryStore × List Inquiry :=
  (if i.state = InquiryState.done then aerase m i.inquiryId else aupsert m i.inquiryId i, [i])

/-- `InquiryService::OnMessage` entered with state QUOTED: the QUOTED switch
case sets the state to DONE, stores the inquiry and notifies the listeners;
the unconditional part then erases it (state is DONE) and notifies again.
Returns the store, the mutated inquiry object, and the notifications. -/
def onMessageQuoted (m : InquiryStore) (i : Inquiry) : InquiryStore × Inquiry × List Inquiry :=
  let iDone := { i with state := InquiryState.done }
  let m1 := aupsert m iDone.inquiryId iDone
  let t := onMessageEnd m1 iDone
  (t.1, iDone, iDone :: t.2)

/-- `InquiryService::OnMessage`.  For state RECEIVED the switch case calls
`connector->Publish(data)`, which flips the same object to QUOTED and
re-enters `OnMessage` (the nested call is the QUOTED run); the outer call
then resumes with the object already mutated to DONE.  For QUOTED it is the
quoted run; every other state only runs the unconditional part. -/
def onMessage (m : InquiryStore) (i : Inquiry) : InquiryStore × Inquiry × List Inquiry :=
  match i.state with
  | InquiryState.received =>
      let r := onMessageQuoted m { i with state := InquiryState.quoted }
      let t := onMessageEnd r.1 r.2.1
      (t.1, r.2.1, r.2.2 ++ t.2)
  | InquiryState.quoted => onMessageQuoted m i
  | _ =>
      let t := onMessageEnd m i
      (t.1, i, t.2)

/-- `InquiryService::SendQuote`: fetch (or default-insert) the inquiry via
`operator[]`, set its price, notify the listeners. -/
def sendQuote (m : InquiryStore) (inquiryId : String) (price : ℚ) :
    InquiryStore × List Inquiry :=
  let i0 := (alookup m inquiryId).getD defaultInquiry
  let i1 := { i0 with price := price }
  (aupsert m inquiryId i1, [i1])

/-- `InquiryService::RejectInquiry`: fetch (or default-insert) the inquiry
via `operator[]` and set its state to REJECTED. -/
def rejectInquiry (m : InquiryStore) (inquiryId : String) : InquiryStore :=
  let i0 := (alookup m inquiryId).getD defaultInquiry
  aupsert m inquiryId { i0 with state := InquiryState.rejected }

/-- The operations of the inquiry service's public mutating interface. -/
inductive InquiryOp
  | message (i : Inquiry)
  | quote (inquiryId : String) (price : ℚ)
  | reject (inquiryId : String)

/-- Apply one inquiry-service operation to the store. -/
def applyInquiryOp (m : InquiryStore) : InquiryOp → InquiryStore
  | InquiryOp.message i => (onMessage m i).1
  | InquiryOp.quote inquiryId price => (sendQuote m inquiryId price).1
  | InquiryOp.reject inquiryId => rejectInquiry m inquiryId

/-- No stored inquiry is in state DONE. -/
def noDoneStore (m : InquiryStore) : Prop :=
  ∀ e ∈ m, e.2.state ≠ InquiryState.done

theorem noDone_onMessage (m : InquiryStore) (i : Inquiry) (h : noDoneStore m) :
    noDoneStore (onMessage m i).1 := by
  obtain ⟨iid, pid, sd, q, pr, stt⟩ := i
  cases stt with
  | received =>
      intro e he
      have hshape : (onMessage m ⟨iid, pid, sd, q, pr, InquiryState.received⟩).1
          = aerase (aerase (aupsert m iid ⟨iid, pid, sd, q, pr, InquiryState.done⟩) iid) iid :=
        rfl
      rw [hshape] at he
      have h1 := mem_aerase he
      have h2 := mem_aerase h1.1
      rcases mem_aupsert h2.1 with heq | hm
      · exact absurd (by rw [heq]) h1.2
      · exact h e hm
  | quoted =>
      intro e he
      have hshape : (onMessage m ⟨iid, pid, sd, q, pr, InquiryState.quoted⟩).1
          = aerase (aupsert m iid ⟨iid, pid, sd, q, pr, InquiryState.done⟩) iid := rfl
      rw [hshape] at he
      have h1 := mem_aerase he
      rcases mem_aupsert h1.1 with heq | hm
      · exact absurd (by rw [heq]) h1.2
      · exact h e hm
  | done =>
      intro e he
      have hshape : (onMessage m ⟨iid, pid, sd, q, pr, InquiryState.done⟩).1
          = aerase m iid := rfl
      rw [hshape] at he
      exact h e (mem_aerase he).1
  | rejected =>
      intro e he
      have hshape : (onMessage m ⟨iid, pid, sd, q, pr, InquiryState.rejected⟩).1
          = aupsert m iid ⟨iid, pid, sd, q, pr, InquiryState.rejected⟩ := rfl
      rw [hshape] at he
      rcases mem_aupsert he with heq | hm
      · rw [heq]
        simp
      · exact h e hm
  | customerRejected =>
      intro e he
      have hshape : (onMessage m ⟨iid, pid, sd, q, pr, InquiryState.customerRejected⟩).1
          = aupsert m iid ⟨iid, pid, sd, q, pr, InquiryState.customerRejected⟩ := rfl
      rw [hshape] at he
      rcases mem_aupsert he with heq | hm
      · rw [heq]
        simp
      · exact h e hm

theorem noDone_sendQuote (m : InquiryStore) (inquiryId : String) (price : ℚ)
    (h : noDoneStore m) : noDoneStore (sendQuote m inquiryId price).1 := by
  intro e he
  simp only [sendQuote] at he
  rcases mem_aupsert he with heq | hm
  · rw [heq]
    cases hl : alookup m inquiryId with
    | none => simp [hl, defaultInquiry]
    | some v =>
        have hv := h (inquiryId, v) (alookup_mem hl)
        simpa [hl] using hv
  · exact h e hm

theorem noDone_rejectInquiry (m : InquiryStore) (inquiryId : String)
    (h : noDoneStore m) : noDoneStore (rejectInquiry m inquiryId) := by
  intro e he
  simp only [rejectInquiry] at he
  rcases mem_aupsert he with heq | hm
  · rw [heq]
    simp
  · exact h e hm

theorem noDone_foldl (ops : List InquiryOp) (m : InquiryStore) (h : noDoneStore m) :
    noDoneStore (ops.foldl applyInquiryOp m) := by
  induction ops generalizing m with
  | nil => simpa using h
  | cons op rest ih =>
      cases op with
      | message i => exact ih _ (noDone_onMessage m i h)
      | quote inquiryId price => exact ih _ (noDone_sendQuote m inquiryId price h)
      | reject inquiryId => exact ih _ (noDone_rejectInquiry m inquiryId h)

/-- C8: after any sequence of inquiry-service operations (OnMessage with any
input state, SendQuote, RejectInquiry) starting from the empty store, no
inquiry in state DONE remains in the keyed store. -/
theorem C8_no_done_inquiry_in_store :
    ∀ (ops : List InquiryOp) (e : String × Inquiry),
      e ∈ ops.foldl applyInquiryOp [] → e.2.state ≠ InquiryState.done := by
  intro ops e he
  refine noDone_foldl ops [] ?_ e he
  intro e' he'
  simp at he'

/-- Witness for C8 on a concrete operation sequence and store entry. -/
theorem C8_witness :
    ("INQ1", ({ defaultInquiry with price := 100 } : Inquiry)) ∈
        ([InquiryOp.quote "INQ1" 100].foldl applyInquiryOp [])
    ∧ ({ defaultInquiry with price := 100 } : Inquiry).state ≠ InquiryState.done :=
  ⟨by decide,
    C8_no_done_inquiry_in_store [InquiryOp.quote "INQ1" 100]
      ("INQ1", { defaultInquiry with price := 100 }) (by decide)⟩

/-- A concrete inquiry arriving in state RECEIVED (scenario S5). -/
def inq0 : Inquiry := ⟨"INQ10001", "9128283H1", Side.buy, 1000000, 100, InquiryState.received⟩

/-- C3: refuted on the code.  A RECEIVED inquiry does reach DONE and is
removed from the store, but the historical listener's `ProcessAdd` is
invoked three times for the terminal transition (the QUOTED-case
notification plus the two unconditional end-of-OnMessage notification loops
of the nested and the outer call), not exactly once. -/
theorem C3_received_inquiry_notifies_three_times_not_once :
    (onMessage [] inq0).2.2.length = 3 ∧ ¬ (onMessage [] inq0).2.2.length = 1 := by
  decide

/-- C3 (amended): any inquiry arriving with state RECEIVED reaches DONE, is
absent from the store afterwards, and each listener's `ProcessAdd` is invoked
exactly three times with the DONE inquiry, so three lines (not one) are
persisted per terminal transition. -/
theorem C3_amended_received_reaches_done_with_three_notifications
    (m : InquiryStore) (i : Inquiry) (h : i.state = InquiryState.received) :
    (onMessage m i).2.1.state = InquiryState.done
    ∧ alookup (onMessage m i).1 i.inquiryId = none
    ∧ (onMessage m i).2.2 =
        [{ i with state := InquiryState.done }, { i with state := InquiryState.done },
          { i with state := InquiryState.done }] := by
  obtain ⟨iid, pid, sd, q, pr, stt⟩ := i
  simp only at h
  subst h
  refine ⟨rfl, ?_, rfl⟩
  have hshape : (onMessage m ⟨iid, pid, sd, q, pr, InquiryState.received⟩).1
      = aerase (aerase (aupsert m iid ⟨iid, pid, sd, q, pr, InquiryState.done⟩) iid) iid := rfl
  rw [hshape]
  exact alookup_aerase_self _ _

/-- Witness for the amended C3 at a concrete RECEIVED inquiry. -/
theorem C3_amended_witness :
    inq0.state = InquiryState.received
    ∧ ((onMessage [] inq0).2.1.state = InquiryState.done
       ∧ alookup (onMessage [] inq0).1 inq0.inquiryId = none
       ∧ (onMessage [] inq0).2.2 =
           [{ inq0 with state := InquiryState.done }, { inq0 with state := InquiryState.done },
             { inq0 with state := InquiryState.done }]) :=
  ⟨rfl, C3_amended_received_reaches_done_with_three_notifications [] inq0 rfl⟩

end TradingSystem
